import Mathlib

/-!
Verification of the Guess-The-Flag-Game repository.

Shallow embedding of the quiz logic:
- utils/text_utils.py : normalize_text, are_strings_similar
- utils/data.py       : Country.check_name_match, language aliases, block list
- screens/game.py     : GameScreen round state, select_new_country, check_answer,
                        skip handling, progress save and load.

Strings are modelled as lists of Unicode scalar values (Char).
-/

namespace Flags

/-- Shorthand turning a Lean string literal into the character-list model. -/
def strL (s : String) : List Char := s.toList

/-! ## text_utils.py -/

/-- Lowercase map for the non-ASCII letters of the repository data: the
accented Latin uppercase letters map to their lowercase forms, everything
else is left unchanged. -/
def accentLower (c : Char) : Char :=
  if c = 'Á' then 'á' else if c = 'É' then 'é' else if c = 'Í' then 'í'
  else if c = 'Ó' then 'ó' else if c = 'Ú' then 'ú' else if c = 'Ü' then 'ü'
  else if c = 'Ñ' then 'ñ' else if c = 'À' then 'à' else if c = 'È' then 'è'
  else if c = 'Ì' then 'ì' else if c = 'Ò' then 'ò' else if c = 'Ù' then 'ù'
  else if c = 'Â' then 'â' else if c = 'Ê' then 'ê' else if c = 'Î' then 'î'
  else if c = 'Ô' then 'ô' else if c = 'Û' then 'û' else if c = 'Ä' then 'ä'
  else if c = 'Ë' then 'ë' else if c = 'Ï' then 'ï' else if c = 'Ö' then 'ö'
  else if c = 'Ç' then 'ç' else c

/-- Model of the Python str.lower character map: ASCII uppercase letters
(codes 65 to 90) shift to lowercase, other ASCII characters are unchanged,
and non-ASCII characters go through the finite table of accentLower. -/
def pyLower (c : Char) : Char :=
  if 65 ≤ c.toNat ∧ c.toNat ≤ 90 then Char.ofNat (c.toNat + 32)
  else if c.toNat < 128 then c
  else accentLower c

/-- Model of NFKD decomposition followed by ASCII encoding with errors
ignored, by finite table: ASCII characters pass through unchanged, the
accented Latin lowercase letters of the repository data decompose to their
base letter, and any other non-ASCII character is dropped. -/
def asciiFold (c : Char) : List Char :=
  if c.toNat < 128 then [c]
  else if c = 'á' ∨ c = 'à' ∨ c = 'â' ∨ c = 'ä' then ['a']
  else if c = 'é' ∨ c = 'è' ∨ c = 'ê' ∨ c = 'ë' then ['e']
  else if c = 'í' ∨ c = 'ì' ∨ c = 'î' ∨ c = 'ï' then ['i']
  else if c = 'ó' ∨ c = 'ò' ∨ c = 'ô' ∨ c = 'ö' then ['o']
  else if c = 'ú' ∨ c = 'ù' ∨ c = 'û' ∨ c = 'ü' then ['u']
  else if c = 'ñ' then ['n']
  else if c = 'ç' then ['c']
  else []

/-- ASCII whitespace characters matched by the Python regex class backslash-s
(the text reaching the regex is pure ASCII after the encode step): space,
tab, newline, carriage return, vertical tab, form feed. -/
def isWS (c : Char) : Bool :=
  c.toNat = 32 ∨ c.toNat = 9 ∨ c.toNat = 10 ∨ c.toNat = 13 ∨
  c.toNat = 11 ∨ c.toNat = 12

/-- Characters kept by re.sub removing everything outside lowercase letters
(codes 97 to 122), digits (codes 48 to 57) and whitespace. -/
def keepChar (c : Char) : Bool :=
  (97 ≤ c.toNat ∧ c.toNat ≤ 122) ∨ (48 ≤ c.toNat ∧ c.toNat ≤ 57) ∨ isWS c

/-- Python str.split with no separator: split on runs of whitespace,
discarding empty pieces.  The accumulator holds the current word reversed. -/
def splitAux : List Char → List Char → List (List Char)
  | [], acc => if acc = [] then [] else [acc.reverse]
  | c :: rest, acc =>
    if isWS c then
      if acc = [] then splitAux rest [] else acc.reverse :: splitAux rest []
    else splitAux rest (c :: acc)

/-- Python str.split with no separator argument. -/
def pySplit (l : List Char) : List (List Char) := splitAux l []

/-- Python str.join with a single-space separator. -/
def joinSpace : List (List Char) → List Char
  | [] => []
  | [w] => w
  | w :: w2 :: ws => w ++ ' ' :: joinSpace (w2 :: ws)

/-- normalize_text from utils/text_utils.py: lowercase, NFKD decompose and
ASCII encode ignoring errors, strip characters outside lowercase letters,
digits and whitespace, then rejoin the whitespace-separated words with
single spaces. -/
def normalize_text (l : List Char) : List Char :=
  joinSpace (pySplit (List.filter keepChar ((List.map pyLower l).flatMap asciiFold)))

/-- Python str.replace of a space by the empty string: remove all spaces. -/
def removeSpaces (l : List Char) : List Char := l.filter (fun c => ¬ c = ' ')

/-- are_strings_similar from utils/text_utils.py.  The Python max_distance
parameter is documented obsolete and unused, so it is omitted. -/
def are_strings_similar (s1 s2 : List Char) : Bool :=
  let n1 := normalize_text s1
  let n2 := normalize_text s2
  n1 = n2 ∨ removeSpaces n1 = removeSpaces n2

/-! ## Well-formedness predicates used to state the claims about
normalize_text (these are spec-side checkers, not source translations). -/

/-- A character allowed in a fully normalized string: lowercase letter
(codes 97 to 122), digit (codes 48 to 57), or a single space (code 32). -/
def isNormChar (c : Char) : Bool :=
  (97 ≤ c.toNat ∧ c.toNat ≤ 122) ∨ (48 ≤ c.toNat ∧ c.toNat ≤ 57) ∨ c.toNat = 32

/-- A word character of a normalized string: lowercase letter or digit,
never whitespace. -/
def goodChar (c : Char) : Bool :=
  (97 ≤ c.toNat ∧ c.toNat ≤ 122) ∨ (48 ≤ c.toNat ∧ c.toNat ≤ 57)

/-- Well-formed word list: every word is nonempty and made of word
characters only. -/
def WordsP (ws : List (List Char)) : Prop :=
  ∀ w ∈ ws, ¬ w = [] ∧ ∀ c ∈ w, goodChar c = true

/-- No two consecutive spaces anywhere in the list. -/
def noDoubleSpace : List Char → Bool
  | c1 :: c2 :: rest => (¬ (c1 = ' ' ∧ c2 = ' ')) ∧ noDoubleSpace (c2 :: rest)
  | _ => true

/-- No leading space, no trailing space, no two consecutive spaces. -/
def noBadSpaces (l : List Char) : Bool :=
  (¬ l.head? = some ' ') ∧ (¬ l.getLast? = some ' ') ∧ noDoubleSpace l

/-- ASCII punctuation: printable ASCII that is neither alphanumeric nor a
space. -/
def isAsciiPunct (c : Char) : Bool :=
  33 ≤ c.toNat ∧ c.toNat < 127 ∧
  ¬ (97 ≤ c.toNat ∧ c.toNat ≤ 122) ∧ ¬ (65 ≤ c.toNat ∧ c.toNat ≤ 90) ∧
  ¬ (48 ≤ c.toNat ∧ c.toNat ≤ 57)

/-! ## utils/data.py -/

/-- The supported language codes of LANG_FILES. -/
inductive Lang where
  | ES | EN | DE | IT | PT
deriving DecidableEq

/-- Country record from utils/data.py.  The derived flag_url field is a pure
string format of the iso code and is not modelled. -/
structure Country where
  name : List Char
  capital : List Char
  continent : List Char
  iso_code : List Char
  abbreviations : List (List Char)
deriving DecidableEq

/-- The accent test of check_name_match: any of the characters in the Python
string of Spanish accents occurring in the lowercased answer. -/
def hasSpanishAccents (answer : List Char) : Bool :=
  (strL "áéíóúüñ").any (fun c => (answer.map pyLower).contains c)

/-- The LANGUAGE_ALIASES table of check_name_match: per active language,
accepted alias phrases keyed by iso code.  Languages without an entry in the
Python dict give no aliases. -/
def languageAliases (lang : Lang) (iso : List Char) : List (List Char) :=
  match lang with
  | Lang.EN =>
    if iso = strL "TL" then [strL "timor leste", strL "timor-leste", strL "east timor"]
    else if iso = strL "CI" then [strL "ivory coast", strL "cote divoire", strL "cote d ivoire"]
    else if iso = strL "CD" then [strL "dr congo", strL "democratic republic of the congo"]
    else if iso = strL "CG" then [strL "republic of the congo", strL "congo brazzaville"]
    else if iso = strL "BO" then [strL "plurinational state of bolivia"]
    else if iso = strL "GB" then [strL "uk", strL "united kingdom"]
    else if iso = strL "US" then [strL "usa", strL "united states", strL "united states of america"]
    else if iso = strL "AE" then [strL "uae", strL "united arab emirates"]
    else if iso = strL "VA" then [strL "vatican", strL "holy see"]
    else if iso = strL "KR" then [strL "south korea"]
    else if iso = strL "KP" then [strL "north korea"]
    else if iso = strL "LA" then [strL "laos"]
    else if iso = strL "FM" then [strL "micronesia"]
    else if iso = strL "MM" then [strL "burma"]
    else if iso = strL "CV" then [strL "cape verde"]
    else if iso = strL "SZ" then [strL "swaziland"]
    else if iso = strL "CZ" then [strL "czech republic"]
    else if iso = strL "MK" then [strL "macedonia"]
    else if iso = strL "PS" then [strL "palestinian territories", strL "state of palestine"]
    else []
  | Lang.ES =>
    if iso = strL "US" then [strL "estados unidos", strL "eeuu"] else []
  | _ => []

/-- The hardcoded block list of Spanish phrases rejected under EN. -/
def spanishPhrases : List (List Char) :=
  [strL "estados unidos", strL "reino unido", strL "corea del sur",
   strL "corea del norte", strL "españa"]

/-- The Spanish-only capital-name exceptions of check_name_match, keyed by
the canonical country name; a_low is the normalized answer. -/
def esSpecial (name a_low : List Char) : Bool :=
  (name = strL "Bolivia" ∧ (a_low = strL "la paz" ∨ a_low = strL "sucre")) ∨
  (name = strL "Sudáfrica" ∧
    (a_low = strL "pretoria" ∨ a_low = strL "ciudad del cabo" ∨ a_low = strL "bloemfontein")) ∨
  (name = strL "Sri Lanka" ∧
    (a_low = strL "sjk" ∨ a_low = strL "kotte" ∨ a_low = strL "sri jayawardenapura kotte")) ∨
  (name = strL "Estados Unidos" ∧
    (a_low = strL "washington" ∨ a_low = strL "washington dc" ∨ a_low = strL "washington d c")) ∨
  (name = strL "México" ∧ (a_low = strL "cdmx" ∨ a_low = strL "ciudad de mexico")) ∨
  (name = strL "Panamá" ∧ (a_low = strL "panama" ∨ a_low = strL "ciudad de panama")) ∨
  (name = strL "Palestina" ∧ (a_low = strL "ramallah" ∨ a_low = strL "jerusalen")) ∨
  (name = strL "Ciudad del Vaticano" ∧
    (a_low = strL "vaticano" ∨ a_low = strL "ciudad del vaticano"))

/-- Country.check_name_match from utils/data.py, with the active language
CURRENT_LANGUAGE passed explicitly.  Checks in source order: the EN accent
guard, are_strings_similar against the canonical name, the per-language
alias table (space-stripped comparison), the EN block list of Spanish
phrases, the ES-only capital exceptions, and finally the abbreviations. -/
def check_name_match (lang : Lang) (co : Country) (answer : List Char) : Bool :=
  if lang = Lang.EN ∧ hasSpanishAccents answer then false
  else if are_strings_similar answer co.name then true
  else
    let a_low := normalize_text answer
    let norm_aliases :=
      (languageAliases lang co.iso_code).map (fun a => removeSpaces (normalize_text a))
    if norm_aliases.contains (removeSpaces a_low) then true
    else if lang = Lang.EN ∧ spanishPhrases.contains a_low then false
    else if lang = Lang.ES ∧ esSpecial co.name a_low then true
    else if co.abbreviations.any
        (fun ab => normalize_text ab = a_low ∨
                   removeSpaces (normalize_text ab) = removeSpaces a_low) then true
    else false

/-! ## screens/game.py : round state and transitions

Only the round-logic fields of GameScreen are modelled; pure rendering
state (fonts, buttons, caches, input scrolling) and the mode-selection
fields are omitted.  The pygame stopwatch is modelled by its running flag,
and the displayed message by the message kind chosen in show_message. -/

/-- The round_phase values. -/
inductive Phase where
  | full | retry
deriving DecidableEq

/-- The kinds of message shown by show_message along the round logic.
congratsAll is the perfect-run congratulation, congratsCompleted the
standard completion message. -/
inductive Msg where
  | noMsg | correct | wrong | skipped | roundExtra | congratsAll | congratsCompleted
deriving DecidableEq

/-- A country name as stored in the GameScreen lists. -/
abbrev CName := List Char

/-- The round-logic state of GameScreen. -/
structure GameState where
  score : Nat
  countries_left : List CName
  total_countries : Nat
  failed_countries : List CName
  current_country : Option CName
  round_phase : Phase
  chrono_running : Bool
  max_score : Nat
  message : Msg
deriving DecidableEq

/-- The swap-pop draw of select_new_country: pick the entry at the drawn
index, overwrite it with the last entry, pop the last entry.  The Python
index comes from random.randrange over the current length; that random
draw is modelled by an arbitrary natural number reduced modulo the length,
which ranges over exactly the outcomes randrange can produce. -/
def swapPop {α : Type} : List α → Nat → Option (α × List α)
  | [], _ => none
  | a :: as, r =>
    let l := a :: as
    let n := r % l.length
    some (l.get ⟨n, Nat.mod_lt r (Nat.succ_pos as.length)⟩,
          (l.set n (l.getLast (List.cons_ne_nil a as))).dropLast)

/-- select_new_country from screens/game.py.  Draw branch: pop a random
country and make it current.  Retry branch (pool exhausted, failures
pending): move the failed list into the pool, reset score, set the retry
phase and clear the current country.  Completion branch: stop the
stopwatch, update the record, show one of the two completion messages, and
clear the current country.  The progress-store clearing of the completion
branch is modelled separately by clear_progress. -/
def select_new_country (r : Nat) (s : GameState) : GameState :=
  match swapPop s.countries_left r with
  | some (c, rest) =>
    { s with current_country := some c, countries_left := rest }
  | none =>
    if ¬ s.failed_countries = [] then
      { s with countries_left := s.failed_countries,
               failed_countries := [],
               score := 0,
               total_countries := s.failed_countries.length,
               round_phase := Phase.retry,
               current_country := none,
               message := Msg.roundExtra }
    else
      { s with chrono_running := false,
               max_score := if s.max_score < s.score then s.score else s.max_score,
               message := if s.score = s.total_countries ∧ ¬ s.total_countries = 0
                          then Msg.congratsAll else Msg.congratsCompleted,
               current_country := none,
               round_phase := Phase.full }

/-- start_new_game from screens/game.py on its default path (retry_failed
false, the only way it is called): start the stopwatch, load the country
pool for the chosen region (passed here as pool0), clear failures, set the
full phase, take the pool size as the total, zero the score, then draw.
The record max_score persists on the screen object and is passed in. -/
def start_new_game (pool0 : List CName) (ms : Nat) (r : Nat) : GameState :=
  select_new_country r
    { score := 0, countries_left := pool0, total_countries := pool0.length,
      failed_countries := [], current_country := none, round_phase := Phase.full,
      chrono_running := true, max_score := ms, message := Msg.noMsg }

/-- The state effect of check_answer from screens/game.py, common to the
three quiz modes: with no current country do nothing; on a correct answer
increment the score, show the success message and draw; on a wrong answer
append the current country to the failed list, show the error message and
draw.  The mode-specific part is only which matcher decides correctness,
abstracted here into the Boolean outcome; the progress-store save on the
correct path is modelled separately by save_progress. -/
def check_answer (correct : Bool) (r : Nat) (s : GameState) : GameState :=
  match s.current_country with
  | none => s
  | some c =>
    if correct then
      select_new_country r { s with score := s.score + 1, message := Msg.correct }
    else
      select_new_country r
        { s with failed_countries := s.failed_countries ++ [c], message := Msg.wrong }

/-- The skip action of handle_events: with a current country, append it to
the failed list, show the skipped message and draw. -/
def skip_current (r : Nat) (s : GameState) : GameState :=
  match s.current_country with
  | none => s
  | some c =>
    select_new_country r
      { s with failed_countries := s.failed_countries ++ [c], message := Msg.skipped }

/-! ## screens/game.py : progress store

PERSISTENT_PROGRESS is a dict from progress keys to snapshots; it is
modelled as a function from keys to optional snapshots.  The key string is
built by _progress_key from the mode-selection fields, which are not part
of the modelled state; it is passed explicitly, with none standing for the
None returned when no mode is chosen. -/

/-- The fields _save_progress stores for a key.  The chrono_elapsed count
and the current_capital (capitals mode only) are omitted along with the
rest of the stopwatch readout. -/
structure Snapshot where
  countries_left : List CName
  failed_countries : List CName
  score : Nat
  total : Nat
  current_country : Option CName
  chrono_running : Bool
  round_phase : Phase
deriving DecidableEq

/-- The in-memory progress store. -/
def Store : Type := List Char → Option Snapshot

/-- The empty store. -/
def emptyStore : Store := fun _ => none

/-- Dict update of one key. -/
def storeSet (st : Store) (k : List Char) (v : Snapshot) : Store :=
  fun k2 => if k2 = k then some v else st k2

/-- The snapshot _save_progress builds from the current state. -/
def snapshotOf (s : GameState) : Snapshot :=
  { countries_left := s.countries_left, failed_countries := s.failed_countries,
    score := s.score, total := s.total_countries,
    current_country := s.current_country, chrono_running := s.chrono_running,
    round_phase := s.round_phase }

/-- _save_progress from screens/game.py: no-op without a key or with an
empty round, no-op for a fresh game (no score yet and not in the retry
phase), otherwise store the snapshot under the key. -/
def save_progress (key : Option (List Char)) (s : GameState) (st : Store) : Store :=
  match key with
  | none => st
  | some k =>
    if s.total_countries = 0 then st
    else if s.score = 0 ∧ ¬ s.round_phase = Phase.retry then st
    else storeSet st k (snapshotOf s)

/-- _clear_progress from screens/game.py: drop the entry of the key. -/
def clear_progress (key : Option (List Char)) (st : Store) : Store :=
  match key with
  | none => st
  | some k => fun k2 => if k2 = k then none else st k2

/-- The field restoration performed by _load_progress: the snapshot fields
overwrite the matching state fields. -/
def restoreState (s : GameState) (sn : Snapshot) : GameState :=
  { s with countries_left := sn.countries_left,
           failed_countries := sn.failed_countries,
           score := sn.score, total_countries := sn.total,
           current_country := sn.current_country,
           chrono_running := sn.chrono_running,
           round_phase := sn.round_phase }

/-- _load_progress from screens/game.py: with a key and a stored snapshot,
restore the snapshot fields over the current state and report the restored
state; if the restored state is a retry interstitial (retry phase, no
current country, pool not empty) show the extra-round message and draw
immediately.  none models the Python False return, which leaves the state
untouched. -/
def load_progress : Option (List Char) → Nat → GameState → Store → Option GameState
  | none, _, _, _ => none
  | some k, r, s, st =>
    (st k).bind (fun sn =>
      if sn.round_phase = Phase.retry ∧ sn.current_country = none ∧
         ¬ sn.countries_left = [] then
        some (select_new_country r { restoreState s sn with message := Msg.roundExtra })
      else
        some (restoreState s sn))

/-- Iterated draws: apply select_new_country once per supplied random seed,
collecting the current country after each call. -/
def runDraws : GameState → List Nat → GameState × List CName
  | s, [] => (s, [])
  | s, r :: rs =>
    let s1 := select_new_country r s
    let p := runDraws s1 rs
    (p.1, s1.current_country.toList ++ p.2)

/-- The pool/failed invariant of the quiz session: the two lists hold no
duplicates and no common element, and the current country sits in neither. -/
def pfInv (s : GameState) : Prop :=
  (s.countries_left ++ s.failed_countries).Nodup ∧
  ∀ c, s.current_country = some c →
    c ∉ s.countries_left ∧ c ∉ s.failed_countries

/-- The invariant carried by a stored snapshot. -/
def snInv (sn : Snapshot) : Prop :=
  (sn.countries_left ++ sn.failed_countries).Nodup ∧
  ∀ c, sn.current_country = some c →
    c ∉ sn.countries_left ∧ c ∉ sn.failed_countries

/-- Every snapshot in the store satisfies the invariant. -/
def storeInv (st : Store) : Prop := ∀ k sn, st k = some sn → snInv sn

/-- The trace after both countries of a two-country pool were answered
wrong in the full phase: the retry transition has happened. -/
def c1AfterFull : GameState :=
  check_answer false 0 (check_answer false 0
    (start_new_game [strL "Chad", strL "Peru"] 0 0))

/-- The trace at the end of the same session: both countries answered
correctly in the retry round. -/
def c1Final : GameState :=
  check_answer true 0 (check_answer true 0 (select_new_country 0 c1AfterFull))

end Flags
namespace Flags

lemma goodChar_of_keep {c : Char} (hk : keepChar c = true) (hw : isWS c = false) :
    goodChar c = true := by
  simp [keepChar, isWS, goodChar] at hk hw ⊢
  omega

lemma isWS_false_of_good {c : Char} (h : goodChar c = true) : isWS c = false := by
  simp [goodChar, isWS] at h ⊢
  omega

lemma isNormChar_of_good {c : Char} (h : goodChar c = true) : isNormChar c = true := by
  simp [goodChar, isNormChar] at h ⊢
  omega

lemma good_ne_space {c : Char} (h : goodChar c = true) : ¬ c = ' ' := by
  intro he
  subst he
  simp [goodChar] at h

lemma splitAux_good : ∀ (l acc : List Char),
    (∀ c ∈ l, keepChar c = true) → (∀ c ∈ acc, goodChar c = true) →
    WordsP (splitAux l acc)
  | [], acc, _, hacc => by
    rw [splitAux]
    by_cases h : acc = []
    · simp [h, WordsP]
    · rw [if_neg h]
      intro w hw
      rw [List.mem_singleton] at hw
      subst hw
      exact ⟨by simpa using h, fun c hc => hacc c (List.mem_reverse.mp hc)⟩
  | c :: rest, acc, hl, hacc => by
    rw [splitAux]
    by_cases hws : isWS c
    · rw [if_pos hws]
      by_cases h : acc = []
      · rw [if_pos h]
        exact splitAux_good rest [] (fun d hd => hl d (List.mem_cons_of_mem _ hd)) (by simp)
      · rw [if_neg h]
        intro w hw
        rcases List.mem_cons.mp hw with hw | hw
        · subst hw
          exact ⟨by simpa using h, fun d hd => hacc d (List.mem_reverse.mp hd)⟩
        · exact splitAux_good rest [] (fun d hd => hl d (List.mem_cons_of_mem _ hd)) (by simp) w hw
    · rw [if_neg hws]
      refine splitAux_good rest (c :: acc) (fun d hd => hl d (List.mem_cons_of_mem _ hd)) ?_
      intro d hd
      rcases List.mem_cons.mp hd with hd | hd
      · subst hd
        exact goodChar_of_keep (hl d (List.mem_cons_self _ _)) (by simpa using hws)
      · exact hacc d hd

lemma pySplit_good {l : List Char} (h : ∀ c ∈ l, keepChar c = true) :
    WordsP (pySplit l) :=
  splitAux_good l [] h (by simp)

lemma joinSpace_all_norm : ∀ {ws : List (List Char)}, WordsP ws →
    ∀ c ∈ joinSpace ws, isNormChar c = true
  | [], _, c, hc => by simp [joinSpace] at hc
  | [w], h, c, hc => by
    rw [joinSpace] at hc
    exact isNormChar_of_good ((h w (List.mem_singleton_self w)).2 c hc)
  | w :: w2 :: ws, h, c, hc => by
    rw [joinSpace] at hc
    rcases List.mem_append.mp hc with hc | hc
    · exact isNormChar_of_good ((h w (List.mem_cons_self _ _)).2 c hc)
    · rcases List.mem_cons.mp hc with hc | hc
      · subst hc
        decide
      · exact joinSpace_all_norm (fun v hv => h v (List.mem_cons_of_mem _ hv)) c hc

lemma joinSpace_head_good : ∀ {ws : List (List Char)}, WordsP ws →
    ∀ c, (joinSpace ws).head? = some c → goodChar c = true
  | [], _, c, hc => by simp [joinSpace] at hc
  | [w], h, c, hc => by
    rw [joinSpace] at hc
    obtain ⟨d, t, rfl⟩ := List.exists_cons_of_ne_nil (h w (List.mem_singleton_self w)).1
    rw [List.head?_cons, Option.some.injEq] at hc
    subst hc
    exact (h _ (List.mem_singleton_self _)).2 d (List.mem_cons_self _ _)
  | w :: w2 :: ws, h, c, hc => by
    rw [joinSpace] at hc
    obtain ⟨d, t, rfl⟩ := List.exists_cons_of_ne_nil (h _ (List.mem_cons_self _ _)).1
    rw [List.cons_append, List.head?_cons, Option.some.injEq] at hc
    subst hc
    exact (h _ (List.mem_cons_self _ _)).2 d (List.mem_cons_self _ _)

lemma joinSpace_ne_nil : ∀ {ws : List (List Char)}, WordsP ws → ¬ ws = [] →
    ¬ joinSpace ws = []
  | [], _, h => absurd rfl h
  | [w], h, _ => by
    rw [joinSpace]
    exact (h w (List.mem_singleton_self w)).1
  | w :: w2 :: ws, h, _ => by
    rw [joinSpace]
    exact List.append_ne_nil_of_left_ne_nil (h w (List.mem_cons_self _ _)).1 _

lemma good_getLast? {l : List Char} (h : ∀ c ∈ l, goodChar c = true)
    {c : Char} (hc : l.getLast? = some c) : goodChar c = true := by
  have : c ∈ l.getLast? := hc ▸ rfl
  obtain ⟨hne, rfl⟩ := List.mem_getLast?_eq_getLast this
  exact h _ (List.getLast_mem hne)

lemma joinSpace_last_good : ∀ {ws : List (List Char)}, WordsP ws →
    ∀ c, (joinSpace ws).getLast? = some c → goodChar c = true
  | [], _, c, hc => by simp [joinSpace] at hc
  | [w], h, c, hc => by
    rw [joinSpace] at hc
    exact good_getLast? (h w (List.mem_singleton_self w)).2 hc
  | w :: w2 :: ws, h, c, hc => by
    rw [joinSpace] at hc
    have htail : WordsP (w2 :: ws) := fun v hv => h v (List.mem_cons_of_mem _ hv)
    have hJ : ¬ joinSpace (w2 :: ws) = [] :=
      joinSpace_ne_nil htail (by simp)
    rw [List.getLast?_append_of_ne_nil _ (by simp)] at hc
    obtain ⟨d, t, hdt⟩ := List.exists_cons_of_ne_nil hJ
    rw [hdt, List.getLast?_cons_cons, ← hdt] at hc
    exact joinSpace_last_good htail c hc

lemma noDoubleSpace_cons {c : Char} {l : List Char} (hc : ¬ c = ' ')
    (hl : noDoubleSpace l = true) : noDoubleSpace (c :: l) = true := by
  cases l with
  | nil => rfl
  | cons d t =>
    rw [noDoubleSpace]
    simp only [Bool.and_eq_true, decide_eq_true_eq] at hl ⊢
    exact ⟨fun hp => hc hp.1, by simpa using hl⟩

lemma noDoubleSpace_append {w l : List Char} (hw : ∀ c ∈ w, goodChar c = true)
    (hl : noDoubleSpace l = true) : noDoubleSpace (w ++ l) = true := by
  induction w with
  | nil => simpa using hl
  | cons c t ih =>
    rw [List.cons_append]
    exact noDoubleSpace_cons (good_ne_space (hw c (List.mem_cons_self _ _)))
      (ih (fun d hd => hw d (List.mem_cons_of_mem _ hd)))

lemma noDoubleSpace_space_cons {l : List Char}
    (hh : ∀ c, l.head? = some c → ¬ c = ' ') (hl : noDoubleSpace l = true) :
    noDoubleSpace (' ' :: l) = true := by
  cases l with
  | nil => rfl
  | cons d t =>
    rw [noDoubleSpace]
    simp only [Bool.and_eq_true, decide_eq_true_eq]
    exact ⟨fun hp => hh d rfl hp.2, by simpa using hl⟩

lemma joinSpace_noDouble : ∀ {ws : List (List Char)}, WordsP ws →
    noDoubleSpace (joinSpace ws) = true
  | [], _ => rfl
  | [w], h => by
    rw [joinSpace]
    have : noDoubleSpace ([] : List Char) = true := rfl
    simpa using noDoubleSpace_append (h w (List.mem_singleton_self w)).2 this
  | w :: w2 :: ws, h => by
    rw [joinSpace]
    have htail : WordsP (w2 :: ws) := fun v hv => h v (List.mem_cons_of_mem _ hv)
    refine noDoubleSpace_append (h w (List.mem_cons_self _ _)).2 ?_
    refine noDoubleSpace_space_cons ?_ (joinSpace_noDouble htail)
    intro c hc
    exact good_ne_space (joinSpace_head_good htail c hc)



lemma pyLower_fix {c : Char} (h : isNormChar c = true) : pyLower c = c := by
  simp [isNormChar] at h
  rw [pyLower, if_neg (by omega), if_pos (by omega)]

lemma asciiFold_fix {c : Char} (h : c.toNat < 128) : asciiFold c = [c] := by
  rw [asciiFold, if_pos h]

lemma keep_of_norm {c : Char} (h : isNormChar c = true) : keepChar c = true := by
  simp [isNormChar] at h
  simp [keepChar, isWS]
  omega

lemma stage_fix : ∀ {l : List Char}, (∀ c ∈ l, isNormChar c = true) →
    List.filter keepChar ((l.map pyLower).flatMap asciiFold) = l
  | [], _ => rfl
  | c :: rest, h => by
    have hc : isNormChar c = true := h c (List.mem_cons_self _ _)
    have hlt : c.toNat < 128 := by
      simp [isNormChar] at hc
      omega
    rw [List.map_cons, List.flatMap_cons, pyLower_fix hc, asciiFold_fix hlt]
    rw [List.singleton_append, List.filter_cons, if_pos (by simpa using keep_of_norm hc)]
    rw [stage_fix (fun d hd => h d (List.mem_cons_of_mem _ hd))]

lemma splitAux_chunk : ∀ {w : List Char} (rest acc : List Char),
    (∀ c ∈ w, goodChar c = true) →
    splitAux (w ++ rest) acc = splitAux rest (w.reverse ++ acc)
  | [], rest, acc, _ => by simp
  | c :: w, rest, acc, h => by
    rw [List.cons_append, splitAux,
        if_neg (by simp [isWS_false_of_good (h c (List.mem_cons_self _ _))]),
        splitAux_chunk rest (c :: acc) (fun d hd => h d (List.mem_cons_of_mem _ hd))]
    simp

lemma pySplit_joinSpace : ∀ {ws : List (List Char)}, WordsP ws →
    pySplit (joinSpace ws) = ws := by
  intro ws
  induction ws with
  | nil => intro _; rfl
  | cons w tail ih =>
    intro h
    have hw : ¬ w = [] := (h w (List.mem_cons_self _ _)).1
    have hwg : ∀ c ∈ w, goodChar c = true := (h w (List.mem_cons_self _ _)).2
    have htail : WordsP tail := fun v hv => h v (List.mem_cons_of_mem _ hv)
    cases tail with
    | nil =>
      show pySplit (joinSpace [w]) = [w]
      rw [joinSpace]
      unfold pySplit
      rw [show w = w ++ [] by simp, splitAux_chunk [] [] hwg, splitAux]
      rw [if_neg (by simpa using hw)]
      simp
    | cons w2 ws2 =>
      show pySplit (joinSpace (w :: w2 :: ws2)) = w :: w2 :: ws2
      rw [joinSpace]
      unfold pySplit
      rw [splitAux_chunk (' ' :: joinSpace (w2 :: ws2)) [] hwg, splitAux]
      rw [if_pos (by simp [isWS]), if_neg (by simpa using hw)]
      have := ih htail
      unfold pySplit at this
      rw [this]
      simp

lemma normalize_words (l : List Char) :
    WordsP (pySplit (List.filter keepChar ((l.map pyLower).flatMap asciiFold))) :=
  pySplit_good (fun _ hc => List.of_mem_filter hc)

/-- Claim C9: normalize_text is idempotent. -/
theorem normalize_text_idempotent (s : List Char) :
    normalize_text (normalize_text s) = normalize_text s := by
  have hws := normalize_words s
  show normalize_text (joinSpace _) = joinSpace _
  rw [normalize_text, stage_fix (joinSpace_all_norm hws), pySplit_joinSpace hws]

lemma punct_filter : ∀ {l : List Char}, (∀ c ∈ l, isAsciiPunct c = true) →
    List.filter keepChar ((l.map pyLower).flatMap asciiFold) = []
  | [], _ => rfl
  | c :: rest, h => by
    have hc : isAsciiPunct c = true := h c (List.mem_cons_self _ _)
    simp [isAsciiPunct] at hc
    have hlow : pyLower c = c := by
      rw [pyLower, if_neg (by omega), if_pos (by omega)]
    rw [List.map_cons, List.flatMap_cons, hlow, asciiFold_fix (by omega)]
    rw [List.singleton_append, List.filter_cons, if_neg (by simp [keepChar, isWS]; omega)]
    exact punct_filter (fun d hd => h d (List.mem_cons_of_mem _ hd))

/-- Claim C8: the output of normalize_text uses only lowercase ASCII letters,
digits and single separating spaces, with no space at either end; the
accented example, the empty string and punctuation-only strings behave as
specified. -/
theorem normalize_text_shape (s ps : List Char)
    (hp : ∀ c ∈ ps, isAsciiPunct c = true) :
    (normalize_text s).all isNormChar = true ∧
    noBadSpaces (normalize_text s) = true ∧
    normalize_text (strL "México") = strL "mexico" ∧
    normalize_text [] = [] ∧
    normalize_text ps = [] := by
  have hws := normalize_words s
  refine ⟨?_, ?_, by decide, rfl, ?_⟩
  · rw [List.all_eq_true]
    exact fun c hc => joinSpace_all_norm hws c hc
  · rw [noBadSpaces]
    simp only [Bool.and_eq_true, decide_eq_true_eq]
    refine ⟨?_, ?_, joinSpace_noDouble hws⟩
    · intro hh
      exact good_ne_space (joinSpace_head_good hws ' ' hh) rfl
    · intro hh
      exact good_ne_space (joinSpace_last_good hws ' ' hh) rfl
  · rw [normalize_text, punct_filter hp]
    rfl

/-- Claim C8 witness on concrete inputs. -/
theorem normalize_text_shape_witness :
    (normalize_text (strL "  Hola   Mundo22 ")).all isNormChar = true ∧
    noBadSpaces (normalize_text (strL "  Hola   Mundo22 ")) = true ∧
    normalize_text (strL "México") = strL "mexico" ∧
    normalize_text [] = [] ∧
    normalize_text (strL "!?.,;") = [] :=
  normalize_text_shape (strL "  Hola   Mundo22 ") (strL "!?.,;") (by decide)



/-- Claim C7: are_strings_similar accepts exactly equality of the normalized
strings, possibly after removing all spaces from both; there is no
edit-distance tolerance, as the costarica and botsuan examples show. -/
theorem are_strings_similar_iff :
    (∀ a b : List Char, are_strings_similar a b = true ↔
      (normalize_text a = normalize_text b ∨
       removeSpaces (normalize_text a) = removeSpaces (normalize_text b))) ∧
    are_strings_similar (strL "costarica") (strL "Costa Rica") = true ∧
    are_strings_similar (strL "botsuan") (strL "Botswana") = false := by
  refine ⟨?_, by decide, by decide⟩
  intro a b
  rw [are_strings_similar]
  simp

/-- Claim C10: under the EN language the accent guard rejects any answer whose
lowercased form contains one of the Spanish accent characters, whatever
the country is. -/
theorem en_accent_guard_rejects (co : Country) (answer : List Char)
    (h : ∃ c ∈ answer, pyLower c ∈ strL "áéíóúüñ") :
    check_name_match Lang.EN co answer = false := by
  have hacc : hasSpanishAccents answer = true := by
    obtain ⟨c, hc, hmem⟩ := h
    rw [hasSpanishAccents, List.any_eq_true]
    refine ⟨pyLower c, hmem, ?_⟩
    rw [List.contains_iff_exists_mem_beq]
    exact ⟨pyLower c, List.mem_map_of_mem pyLower hc, by simp⟩
  rw [check_name_match, if_pos (by simp [hacc])]

/-- Claim C10 witness: the accented spelling México is rejected under EN even
though its normalization equals the normalization of the canonical name
Mexico. -/
theorem en_accent_guard_rejects_witness :
    check_name_match Lang.EN
      ⟨strL "Mexico", strL "Mexico City", strL "North America", strL "MX", []⟩
      (strL "México") = false ∧
    normalize_text (strL "México") = normalize_text (strL "Mexico") :=
  ⟨en_accent_guard_rejects _ _ ⟨'é', by decide, by decide⟩, by decide⟩

/-- Claim C2 counterexample: under EN an answer in the Spanish block list that
coincidentally normalize-matches the canonical country name is accepted,
because are_strings_similar runs before the block-list guard. -/
theorem spanish_phrase_match_counterexample :
    spanishPhrases.contains (normalize_text (strL "estados unidos")) = true ∧
    normalize_text (strL "estados unidos") = normalize_text (strL "Estados Unidos") ∧
    check_name_match Lang.EN
      ⟨strL "Estados Unidos", strL "Washington", strL "America", strL "US", []⟩
      (strL "estados unidos") = true := by
  refine ⟨by decide, by decide, by decide⟩

/-- Claim C2 amended: under EN an answer normalizing into the Spanish block list
is rejected provided it does not already normalize-match the canonical
name and its space-stripped normalization is not an EN alias of the
country iso code. -/
theorem spanish_phrase_blocked (co : Country) (answer : List Char)
    (hp : spanishPhrases.contains (normalize_text answer) = true)
    (hsim : are_strings_similar answer co.name = false)
    (hal : ((languageAliases Lang.EN co.iso_code).map
        (fun a => removeSpaces (normalize_text a))).contains
        (removeSpaces (normalize_text answer)) = false) :
    check_name_match Lang.EN co answer = false := by
  rw [check_name_match]
  by_cases hacc : hasSpanishAccents answer = true
  · rw [if_pos (by simp [hacc])]
  · rw [if_neg (by simp [hacc]), if_neg (by simp [hsim])]
    rw [if_neg (by simpa using hal), if_pos (by simpa using hp)]

/-- Claim C2 amended witness: the phrase estados unidos is rejected for a
country it does not name. -/
theorem spanish_phrase_blocked_witness :
    check_name_match Lang.EN
      ⟨strL "France", strL "Paris", strL "Europe", strL "FR", []⟩
      (strL "estados unidos") = false :=
  spanish_phrase_blocked _ _ (by decide) (by decide) (by decide)



lemma get_set_last_perm {α : Type} :
    ∀ (l : List α) (n : Nat) (hn : n < l.length) (hne : l ≠ []),
      List.Perm (l.get ⟨n, hn⟩ :: ((l.set n (l.getLast hne)).dropLast)) l
  | a :: as, 0, hn, hne => by
    cases as with
    | nil => exact List.Perm.refl _
    | cons a2 as2 =>
      show List.Perm
        (a :: (((a :: a2 :: as2).getLast hne :: a2 :: as2).dropLast)) (a :: a2 :: as2)
      rw [List.dropLast_cons₂, List.getLast_cons (by simp)]
      refine List.Perm.cons a ?_
      conv_rhs => rw [← List.dropLast_append_getLast (l := a2 :: as2) (by simp)]
      exact (List.perm_append_singleton _ _).symm
  | a :: as, n + 1, hn, hne => by
    have hn' : n < as.length := by simpa using hn
    have hasne : as ≠ [] := by
      intro he
      rw [he] at hn'
      simp at hn'
    have hsetne : as.set n ((a :: as).getLast hne) ≠ [] := by
      intro he
      have := congrArg List.length he
      rw [List.length_set] at this
      rw [this] at hn'
      simp at hn'
    show List.Perm
      (as.get ⟨n, hn'⟩ :: ((a :: as.set (n) ((a :: as).getLast hne)).dropLast)) (a :: as)
    rw [List.dropLast_cons_of_ne_nil hsetne, List.getLast_cons hasne]
    exact List.Perm.trans
      (List.Perm.swap a (as.get ⟨n, hn'⟩) ((as.set n (as.getLast hasne)).dropLast))
      (List.Perm.cons a (get_set_last_perm as n hn' hasne))



lemma swapPop_eq_none {α : Type} {l : List α} {r : Nat} :
    swapPop l r = none ↔ l = [] := by
  cases l <;> simp [swapPop]

lemma swapPop_perm {α : Type} {l : List α} {r : Nat} {c : α} {rest : List α}
    (h : swapPop l r = some (c, rest)) : List.Perm (c :: rest) l := by
  cases l with
  | nil => simp [swapPop] at h
  | cons a as =>
    rw [swapPop] at h
    simp only [Option.some.injEq, Prod.mk.injEq] at h
    obtain ⟨hc, hrest⟩ := h
    rw [← hc, ← hrest]
    exact get_set_last_perm (a :: as) _ _ _

/-- Claim C4: when the pool is exhausted and failures are pending,
select_new_country moves the failed list into the pool, clears it, resets
the score, makes the moved count the new total, enters the retry phase and
clears the current country. -/
theorem retry_transition (s : GameState) (r : Nat)
    (h1 : s.countries_left = []) (h2 : ¬ s.failed_countries = []) :
    (select_new_country r s).countries_left = s.failed_countries ∧
    (select_new_country r s).failed_countries = [] ∧
    (select_new_country r s).score = 0 ∧
    (select_new_country r s).total_countries = s.failed_countries.length ∧
    (select_new_country r s).round_phase = Phase.retry ∧
    (select_new_country r s).current_country = none := by
  rw [select_new_country, h1]
  simp [swapPop, h2]

/-- Claim C4 witness at a concrete retry state. -/
theorem retry_transition_witness :
    (select_new_country 0
      { score := 2, countries_left := [], total_countries := 3,
        failed_countries := [strL "Peru"], current_country := some (strL "Chad"),
        round_phase := Phase.full, chrono_running := true, max_score := 0,
        message := Msg.wrong }).countries_left = [strL "Peru"] ∧
    (select_new_country 0
      { score := 2, countries_left := [], total_countries := 3,
        failed_countries := [strL "Peru"], current_country := some (strL "Chad"),
        round_phase := Phase.full, chrono_running := true, max_score := 0,
        message := Msg.wrong }).round_phase = Phase.retry := by
  have h := retry_transition
    { score := 2, countries_left := [], total_countries := 3,
      failed_countries := [strL "Peru"], current_country := some (strL "Chad"),
      round_phase := Phase.full, chrono_running := true, max_score := 0,
      message := Msg.wrong } 0 rfl (by simp)
  exact ⟨h.1, h.2.2.2.2.1⟩

lemma runDraws_spec : ∀ (rs : List Nat) (s : GameState),
    s.failed_countries = [] → rs.length ≤ s.countries_left.length →
    List.Perm ((runDraws s rs).2 ++ (runDraws s rs).1.countries_left)
      s.countries_left ∧
    (runDraws s rs).1.countries_left.length + rs.length =
      s.countries_left.length ∧
    (runDraws s rs).1.failed_countries = []
  | [], s, hf, _ => by
    rw [runDraws]
    exact ⟨by simp, by simp, hf⟩
  | r :: rs, s, hf, hlen => by
    have hne : s.countries_left ≠ [] := by
      intro he
      rw [he] at hlen
      simp at hlen
    obtain ⟨c, rest, hsp⟩ : ∃ c rest, swapPop s.countries_left r = some (c, rest) := by
      cases hx : swapPop s.countries_left r with
      | none => exact absurd (swapPop_eq_none.mp hx) hne
      | some p => exact ⟨p.1, p.2, by simp [hx]⟩
    have hperm := swapPop_perm hsp
    have hlr : rest.length + 1 = s.countries_left.length := by
      simpa using hperm.length_eq
    have hsel : select_new_country r s =
        { s with current_country := some c, countries_left := rest } := by
      rw [select_new_country, hsp]
    have hlen2 : rs.length ≤ rest.length := by
      simp only [List.length_cons] at hlen
      omega
    have ih := runDraws_spec rs
      { s with current_country := some c, countries_left := rest }
      (by simpa using hf) (by simpa using hlen2)
    rw [runDraws, hsel]
    simp only at ih ⊢
    refine ⟨?_, by simp at ih ⊢; omega, ih.2.2⟩
    simp only [Option.toList_some, List.cons_append, List.singleton_append]
    exact List.Perm.trans (List.Perm.cons c ih.1) hperm

/-- Claim C5: from a duplicate-free pool of N countries with no failures pending,
N draws produce the N pool countries each exactly once, and one further
call to select_new_country completes the round, clearing the current
country and stopping the stopwatch. -/
theorem distinct_draws_then_complete (s : GameState) (rs : List Nat) (rlast : Nat)
    (hf : s.failed_countries = []) (hnd : s.countries_left.Nodup)
    (hlen : rs.length = s.countries_left.length) :
    (runDraws s rs).2.Nodup ∧
    List.Perm (runDraws s rs).2 s.countries_left ∧
    (runDraws s rs).1.countries_left = [] ∧
    (select_new_country rlast (runDraws s rs).1).current_country = none ∧
    (select_new_country rlast (runDraws s rs).1).chrono_running = false := by
  obtain ⟨hperm, hcount, hfail⟩ := runDraws_spec rs s hf (le_of_eq hlen)
  have h0 : (runDraws s rs).1.countries_left.length = 0 := by omega
  have hpool : (runDraws s rs).1.countries_left = [] := List.length_eq_zero.mp h0
  have hdperm : List.Perm (runDraws s rs).2 s.countries_left := by
    rw [hpool] at hperm
    simpa using hperm
  refine ⟨hdperm.symm.nodup hnd, hdperm, hpool, ?_, ?_⟩ <;>
    rw [select_new_country, hpool, show swapPop ([] : List CName) rlast = none from rfl,
      if_neg (by simp [hfail])]

/-- Claim C5 witness on a concrete three-country pool. -/
theorem distinct_draws_then_complete_witness :
    ((runDraws
      { score := 0, countries_left := [strL "a", strL "b", strL "c"],
        total_countries := 3, failed_countries := [], current_country := none,
        round_phase := Phase.full, chrono_running := true, max_score := 0,
        message := Msg.noMsg } [1, 0, 0]).2.Nodup) ∧
    (select_new_country 0 (runDraws
      { score := 0, countries_left := [strL "a", strL "b", strL "c"],
        total_countries := 3, failed_countries := [], current_country := none,
        round_phase := Phase.full, chrono_running := true, max_score := 0,
        message := Msg.noMsg } [1, 0, 0]).1).current_country = none := by
  have h := distinct_draws_then_complete
    { score := 0, countries_left := [strL "a", strL "b", strL "c"],
      total_countries := 3, failed_countries := [], current_country := none,
      round_phase := Phase.full, chrono_running := true, max_score := 0,
      message := Msg.noMsg } [1, 0, 0] 0 rfl (by decide) rfl
  exact ⟨h.1, h.2.2.2.1⟩



lemma select_pfInv (r : Nat) (s : GameState)
    (h : (s.countries_left ++ s.failed_countries).Nodup) :
    pfInv (select_new_country r s) := by
  cases hx : swapPop s.countries_left r with
  | some p =>
    obtain ⟨c, rest⟩ := p
    have hperm := swapPop_perm hx
    have hnd : (c :: (rest ++ s.failed_countries)).Nodup := by
      have h2 := (hperm.append_right s.failed_countries).symm.nodup h
      simpa using h2
    rw [List.nodup_cons] at hnd
    rw [select_new_country, hx]
    unfold pfInv
    refine ⟨by simpa using hnd.2, ?_⟩
    intro c0 hc0
    simp only [Option.some.injEq] at hc0
    subst hc0
    have := hnd.1
    simp only [List.mem_append] at this
    constructor
    · simpa using fun hm => this (Or.inl hm)
    · simpa using fun hm => this (Or.inr hm)
  | none =>
    have hpool : s.countries_left = [] := swapPop_eq_none.mp hx
    rw [select_new_country, hx]
    by_cases h2 : s.failed_countries = []
    · rw [if_neg (by simp [h2])]
      unfold pfInv
      refine ⟨by simp [hpool, h2], ?_⟩
      intro c0 hc0
      simp at hc0
    · rw [if_pos h2]
      unfold pfInv
      refine ⟨?_, ?_⟩
      · rw [hpool] at h
        simpa using h
      · intro c0 hc0
        simp at hc0

lemma fail_append_nodup {s : GameState} {c : CName} (h : pfInv s)
    (hc : s.current_country = some c) :
    (s.countries_left ++ (s.failed_countries ++ [c])).Nodup := by
  obtain ⟨hnd, hcur⟩ := h
  obtain ⟨hc1, hc2⟩ := hcur c hc
  rw [← List.append_assoc]
  refine (List.perm_append_singleton c _).symm.nodup ?_
  rw [List.nodup_cons]
  exact ⟨by simp [hc1, hc2], hnd⟩

lemma check_answer_pfInv (b : Bool) (r : Nat) (s : GameState) (h : pfInv s) :
    pfInv (check_answer b r s) := by
  cases hc : s.current_country with
  | none =>
    have he : check_answer b r s = s := by
      unfold check_answer
      rw [hc]
    rw [he]
    exact h
  | some c =>
    cases b with
    | true =>
      have he : check_answer true r s = select_new_country r
          { s with score := s.score + 1, message := Msg.correct } := by
        unfold check_answer
        rw [hc]
        rfl
      rw [he]
      exact select_pfInv r _ (by simpa using h.1)
    | false =>
      have he : check_answer false r s = select_new_country r
          { s with failed_countries := s.failed_countries ++ [c],
                   message := Msg.wrong } := by
        unfold check_answer
        rw [hc]
        rfl
      rw [he]
      exact select_pfInv r _ (by simpa using fail_append_nodup h hc)

lemma skip_current_pfInv (r : Nat) (s : GameState) (h : pfInv s) :
    pfInv (skip_current r s) := by
  cases hc : s.current_country with
  | none =>
    have he : skip_current r s = s := by
      unfold skip_current
      rw [hc]
    rw [he]
    exact h
  | some c =>
    have he : skip_current r s = select_new_country r
        { s with failed_countries := s.failed_countries ++ [c],
                 message := Msg.skipped } := by
      unfold skip_current
      rw [hc]
    rw [he]
    exact select_pfInv r _ (by simpa using fail_append_nodup h hc)

lemma snapshotOf_snInv {s : GameState} (h : pfInv s) : snInv (snapshotOf s) := by
  unfold snInv snapshotOf
  exact ⟨h.1, h.2⟩

lemma save_storeInv (key : Option (List Char)) (s : GameState) (st : Store)
    (hs : pfInv s) (hst : storeInv st) : storeInv (save_progress key s st) := by
  cases key with
  | none => exact hst
  | some k =>
    have he : save_progress (some k) s st =
        if s.total_countries = 0 then st
        else if s.score = 0 ∧ ¬ s.round_phase = Phase.retry then st
        else storeSet st k (snapshotOf s) := rfl
    rw [he]
    by_cases h1 : s.total_countries = 0
    · rw [if_pos h1]; exact hst
    · rw [if_neg h1]
      by_cases h2 : s.score = 0 ∧ ¬ s.round_phase = Phase.retry
      · rw [if_pos h2]; exact hst
      · rw [if_neg h2]
        intro k2 sn hk2
        unfold storeSet at hk2
        by_cases hkk : k2 = k
        · rw [if_pos hkk, Option.some.injEq] at hk2
          rw [← hk2]
          exact snapshotOf_snInv hs
        · rw [if_neg hkk] at hk2
          exact hst k2 sn hk2

lemma load_pfInv (key : Option (List Char)) (r : Nat) (s2 : GameState)
    (st : Store) (hst : storeInv st) {s3 : GameState}
    (h : load_progress key r s2 st = some s3) : pfInv s3 := by
  cases key with
  | none => simp [load_progress] at h
  | some k =>
    cases hk : st k with
    | none =>
      have he : load_progress (some k) r s2 st = none := by
        simp only [load_progress]
        rw [hk]
        rfl
      rw [he] at h
      exact absurd h (by simp)
    | some sn =>
      have hsn := hst k sn hk
      by_cases hres : sn.round_phase = Phase.retry ∧ sn.current_country = none ∧
          ¬ sn.countries_left = []
      · have he : load_progress (some k) r s2 st = some (select_new_country r
            { restoreState s2 sn with message := Msg.roundExtra }) := by
          simp only [load_progress]
          rw [hk, Option.some_bind, if_pos hres]
        rw [he, Option.some.injEq] at h
        rw [← h]
        exact select_pfInv r _ (by simp [restoreState, hsn.1])
      · have he : load_progress (some k) r s2 st = some (restoreState s2 sn) := by
          simp only [load_progress]
          rw [hk, Option.some_bind, if_neg hres]
        rw [he, Option.some.injEq] at h
        rw [← h]
        unfold pfInv
        exact ⟨by simp [restoreState, hsn.1], by simpa [restoreState] using hsn.2⟩

/-- Claim C6: under the session invariant the remaining pool and the failed pool
share no country, and drawing, answering (either way), skipping, the retry
transition (all through select_new_country) and saving then restoring
progress all preserve the invariant. -/
theorem pool_failed_disjoint (s : GameState) (h : pfInv s) (r : Nat) (b : Bool)
    (key : Option (List Char)) (st : Store) (hst : storeInv st) :
    (∀ c ∈ s.countries_left, c ∉ s.failed_countries) ∧
    pfInv (select_new_country r s) ∧
    pfInv (check_answer b r s) ∧
    pfInv (skip_current r s) ∧
    storeInv (save_progress key s st) ∧
    (∀ s2 s3, load_progress key r s2 (save_progress key s st) = some s3 →
      pfInv s3) := by
  refine ⟨fun c hc => List.disjoint_of_nodup_append h.1 hc,
    select_pfInv r s h.1, check_answer_pfInv b r s h,
    skip_current_pfInv r s h, save_storeInv key s st h hst,
    fun s2 s3 hl => load_pfInv key r s2 _ (save_storeInv key s st h hst) hl⟩

/-- Claim C6 witness at a concrete mid-round state. -/
theorem pool_failed_disjoint_witness :
    (∀ c ∈ [strL "Peru", strL "Chad"], c ∉ [strL "Mali"]) ∧
    pfInv (select_new_country 0
      { score := 1, countries_left := [strL "Peru", strL "Chad"],
        total_countries := 4, failed_countries := [strL "Mali"],
        current_country := some (strL "Cuba"), round_phase := Phase.full,
        chrono_running := true, max_score := 0, message := Msg.correct }) ∧
    pfInv (check_answer true 0
      { score := 1, countries_left := [strL "Peru", strL "Chad"],
        total_countries := 4, failed_countries := [strL "Mali"],
        current_country := some (strL "Cuba"), round_phase := Phase.full,
        chrono_running := true, max_score := 0, message := Msg.correct }) ∧
    pfInv (skip_current 0
      { score := 1, countries_left := [strL "Peru", strL "Chad"],
        total_countries := 4, failed_countries := [strL "Mali"],
        current_country := some (strL "Cuba"), round_phase := Phase.full,
        chrono_running := true, max_score := 0, message := Msg.correct }) ∧
    storeInv (save_progress (some (strL "global|flags"))
      { score := 1, countries_left := [strL "Peru", strL "Chad"],
        total_countries := 4, failed_countries := [strL "Mali"],
        current_country := some (strL "Cuba"), round_phase := Phase.full,
        chrono_running := true, max_score := 0, message := Msg.correct }
      emptyStore) ∧
    (∀ s2 s3, load_progress (some (strL "global|flags")) 0 s2
        (save_progress (some (strL "global|flags"))
          { score := 1, countries_left := [strL "Peru", strL "Chad"],
            total_countries := 4, failed_countries := [strL "Mali"],
            current_country := some (strL "Cuba"), round_phase := Phase.full,
            chrono_running := true, max_score := 0, message := Msg.correct }
          emptyStore) = some s3 → pfInv s3) := by
  exact pool_failed_disjoint
    { score := 1, countries_left := [strL "Peru", strL "Chad"],
      total_countries := 4, failed_countries := [strL "Mali"],
      current_country := some (strL "Cuba"), round_phase := Phase.full,
      chrono_running := true, max_score := 0, message := Msg.correct }
    ⟨by decide, fun c hc => by
      simp only [Option.some.injEq] at hc
      rw [← hc]
      exact ⟨by decide, by decide⟩⟩
    0 true (some (strL "global|flags")) emptyStore
    (fun k sn hk => Option.noConfusion hk)



/-- Claim C3 counterexample: saving at the retry interstitial (retry phase, no
current country, pool not empty) and loading under the same key restores a
state whose pool lost one element, because load_progress immediately draws
the next country. -/
theorem save_load_roundtrip_counterexample :
    (load_progress (some (strL "global|flags")) 0
        { score := 0, countries_left := [strL "Chad"], total_countries := 1,
          failed_countries := [], current_country := none,
          round_phase := Phase.retry, chrono_running := true, max_score := 0,
          message := Msg.roundExtra }
        (save_progress (some (strL "global|flags"))
          { score := 0, countries_left := [strL "Chad"], total_countries := 1,
            failed_countries := [], current_country := none,
            round_phase := Phase.retry, chrono_running := true, max_score := 0,
            message := Msg.roundExtra }
          emptyStore)).map (fun s2 => s2.countries_left) = some [] ∧
    ¬ ({ score := 0, countries_left := [strL "Chad"], total_countries := 1,
         failed_countries := [], current_country := none,
         round_phase := Phase.retry, chrono_running := true, max_score := 0,
         message := Msg.roundExtra } : GameState).countries_left = [] := by
  exact ⟨by decide, by decide⟩

/-- Claim C3 amended: for a state that passes the save guard (a nonzero total and
either a nonzero score or the retry phase) and is not the retry
interstitial (retry phase with no current country and a nonempty pool),
saving under a key and loading with the same key restores the pool, the
failed pool, the score and the phase exactly. -/
theorem save_load_roundtrip (s s2 : GameState) (k : List Char) (st : Store)
    (r : Nat) (h1 : ¬ s.total_countries = 0)
    (h2 : ¬ s.score = 0 ∨ s.round_phase = Phase.retry)
    (h3 : ¬ (s.round_phase = Phase.retry ∧ s.current_country = none ∧
             ¬ s.countries_left = [])) :
    ∃ s3, load_progress (some k) r s2 (save_progress (some k) s st) = some s3 ∧
      s3.countries_left = s.countries_left ∧
      s3.failed_countries = s.failed_countries ∧
      s3.score = s.score ∧ s3.round_phase = s.round_phase := by
  have hsave : save_progress (some k) s st = storeSet st k (snapshotOf s) := by
    have he : save_progress (some k) s st =
        if s.total_countries = 0 then st
        else if s.score = 0 ∧ ¬ s.round_phase = Phase.retry then st
        else storeSet st k (snapshotOf s) := rfl
    rw [he, if_neg h1, if_neg (by tauto)]
  have hload : load_progress (some k) r s2 (storeSet st k (snapshotOf s)) =
      some (restoreState s2 (snapshotOf s)) := by
    simp only [load_progress]
    have hk : storeSet st k (snapshotOf s) k = some (snapshotOf s) := by
      unfold storeSet
      rw [if_pos rfl]
    rw [hk, Option.some_bind, if_neg (by simpa [snapshotOf] using h3)]
  rw [hsave, hload]
  exact ⟨restoreState s2 (snapshotOf s), rfl, by simp [restoreState, snapshotOf],
    by simp [restoreState, snapshotOf], by simp [restoreState, snapshotOf],
    by simp [restoreState, snapshotOf]⟩

/-- Claim C3 witness at a concrete mid-round saved state. -/
theorem save_load_roundtrip_witness :
    ∃ s3, load_progress (some (strL "global|flags")) 0
        { score := 0, countries_left := [], total_countries := 0,
          failed_countries := [], current_country := none,
          round_phase := Phase.full, chrono_running := false, max_score := 0,
          message := Msg.noMsg }
        (save_progress (some (strL "global|flags"))
          { score := 1, countries_left := [strL "Peru"], total_countries := 2,
            failed_countries := [strL "Mali"],
            current_country := some (strL "Cuba"), round_phase := Phase.full,
            chrono_running := true, max_score := 0, message := Msg.correct }
          emptyStore) = some s3 ∧
      s3.countries_left = [strL "Peru"] ∧
      s3.failed_countries = [strL "Mali"] ∧ s3.score = 1 ∧
      s3.round_phase = Phase.full := by
  have h := save_load_roundtrip
    { score := 1, countries_left := [strL "Peru"], total_countries := 2,
      failed_countries := [strL "Mali"], current_country := some (strL "Cuba"),
      round_phase := Phase.full, chrono_running := true, max_score := 0,
      message := Msg.correct }
    { score := 0, countries_left := [], total_countries := 0,
      failed_countries := [], current_country := none,
      round_phase := Phase.full, chrono_running := false, max_score := 0,
      message := Msg.noMsg }
    (strL "global|flags") emptyStore 0 (by decide) (Or.inl (by decide))
    (by simp)
  exact h

/-- Claim C1: on the session in which every country is answered wrong once in
the full phase and then correctly in the retry phase, the completion
branch shows the perfect-run congratulation, because the code only
compares the final score with the retry total and keeps no record of the
earlier failures. -/
theorem perfect_message_after_failures :
    c1AfterFull.round_phase = Phase.retry ∧
    c1AfterFull.score = 0 ∧
    c1Final.score = 2 ∧ c1Final.total_countries = 2 ∧
    c1Final.current_country = none ∧ c1Final.chrono_running = false ∧
    c1Final.message = Msg.congratsAll := by
  exact ⟨by decide, by decide, by decide, by decide, by decide, by decide, by decide⟩


end Flags
